import Mathlib

/-!
Adaptive UI (`script.js`): interaction counters and profile classification.

A shallow embedding of `src/Adaptive UI using AI HCI/script.js`.

* The two module-level counters `detailClicks` and `simpleClicks` are JavaScript
  Numbers, that is IEEE 754 binary64 values.  They only ever hold integers, so
  the embedding stores the integer value in a `Nat`; every arithmetic operation
  of the script (`++`, `+`, `/`, the literal `0.6`, `>`) is the exact operation
  followed by rounding to the nearest binary64 value, ties to even
  (`F64.round`).
* The part of the document the script reads and writes is made explicit in
  `Page`: the class list of every card's `.details` element, the text of every
  toggle button, the class list of `document.body` and the text of
  `#profile-label`.
* `alert(...)` is the only output of `adaptInterface`; it is returned as the
  `AdaptResult.alert` outcome.
-/

namespace AdaptiveUI

/-! ## Binary64 arithmetic -/

/-- A finite non-negative binary64 value `mant * 2 ^ expo`.  Zero is `⟨0, 0⟩`;
a positive (normal) value has `2 ^ 52 ≤ mant < 2 ^ 53`. -/
structure F64 where
  mant : Nat
  expo : Int
deriving DecidableEq, Repr

/-- Worker of `ilog2`: the recursion is on the first argument. -/
def log2Fuel : Nat → Nat → Nat
  | 0, _ => 0
  | fuel + 1, n => if n < 2 then 0 else log2Fuel fuel (n / 2) + 1

/-- Position of the leading bit of `n`: `2 ^ ilog2 n ≤ n < 2 ^ (ilog2 n + 1)` for `0 < n`. -/
def ilog2 (n : Nat) : Nat := log2Fuel n n

/-- The fraction `n / (d * 2 ^ k)` as a numerator and a denominator. -/
def F64.scaled (n d : Nat) (k : Int) : Nat × Nat :=
  (n * 2 ^ (-k).toNat, d * 2 ^ k.toNat)

/-- The exponent of the binary64 value of the quotient `n / d` (`0 < n`, `0 < d`)
before rounding: the `k` for which `n / (d * 2 ^ k)` has its integer part in
`[2 ^ 52, 2 ^ 53)`.  It is the difference of the leading bit positions, less
52, or one below that. -/
def F64.exponent (n d : Nat) : Int :=
  let k0 : Int := (ilog2 n : Int) - (ilog2 d : Int) - 52
  if (F64.scaled n d k0).1 / (F64.scaled n d k0).2 < 2 ^ 52 then k0 - 1 else k0

/-- Rounding of `n / d` at exponent `k`: the integer part of `n / (d * 2 ^ k)`
is the truncated mantissa; it is incremented when the remainder is more than
half a unit, or exactly half a unit and the mantissa odd (ties to even); a
mantissa that reaches `2 ^ 53` is renormalised. -/
def F64.roundAt (n d : Nat) (k : Int) : F64 :=
  let num := (F64.scaled n d k).1
  let den := (F64.scaled n d k).2
  let q := num / den
  let r := num % den
  let m := if den < 2 * r ∨ (den = 2 * r ∧ q % 2 = 1) then q + 1 else q
  if m = 2 ^ 53 then ⟨2 ^ 52, k + 1⟩ else ⟨m, k⟩

/-- The binary64 value nearest to the exact quotient `n / d` (`0 < d`), ties to
the even mantissa.  The exponent range of binary64 is not modelled (no
subnormals, no overflow): every quotient the script forms lies between
`2 ^ (-54)` and `2 ^ 54`. -/
def F64.round (n d : Nat) : F64 :=
  if n = 0 then ⟨0, 0⟩ else F64.roundAt n d (F64.exponent n d)

/-- The integer value of an integer-valued binary64 number. -/
def F64.toNat (a : F64) : Nat := a.mant * 2 ^ a.expo.toNat / 2 ^ (-a.expo).toNat

/-- Order of binary64 values: `a.mant * 2 ^ a.expo < b.mant * 2 ^ b.expo`, with
both sides scaled by the smaller exponent. -/
instance : LT F64 :=
  ⟨fun a b => a.mant * 2 ^ (a.expo - b.expo).toNat < b.mant * 2 ^ (b.expo - a.expo).toNat⟩

instance (a b : F64) : Decidable (a < b) :=
  inferInstanceAs (Decidable (a.mant * 2 ^ (a.expo - b.expo).toNat
    < b.mant * 2 ^ (b.expo - a.expo).toNat))

/-- JavaScript `a + b` on integer-valued Numbers: the exact sum, rounded. -/
def numAdd (a b : Nat) : Nat := (F64.round (a + b) 1).toNat

/-- JavaScript `x++` on an integer-valued Number: the new value of `x`. -/
def numIncr (x : Nat) : Nat := numAdd x 1

/-- JavaScript `a / b` on integer-valued Numbers, `0 < b`. -/
def numDiv (a b : Nat) : F64 := F64.round a b

/-- The Number denoted by the literal `0.6`. -/
def lit0_6 : F64 := F64.round 6 10

/-! ## The document -/

/-- `classList.contains(c)`. -/
def classContains (cs : List String) (c : String) : Bool := decide (c ∈ cs)

/-- `classList.add(c)`: a token list holds each class once. -/
def classAdd (cs : List String) (c : String) : List String :=
  if c ∈ cs then cs else cs ++ [c]

/-- `classList.remove(c)`. -/
def classRemove (cs : List String) (c : String) : List String :=
  cs.filter (fun x => decide (x ≠ c))

/-- One `.card`: the class list of its `.details` element and the text of its
`.toggle-details` button. -/
structure Card where
  detailsClasses : List String
  btnText : String
deriving DecidableEq, Repr

/-- Whether the details of a card are hidden: `details.classList.contains("hidden")`. -/
def Card.isHidden (c : Card) : Bool := classContains c.detailsClasses "hidden"

/-- Everything the script reads or writes. -/
structure Page where
  detailClicks : Nat
  simpleClicks : Nat
  cards : List Card
  bodyClasses : List String
  profileLabel : String
deriving DecidableEq, Repr

/-- The state when the script is loaded: `let detailClicks = 0; let simpleClicks = 0;`
over a given document. -/
def Page.init (cards : List Card) (bodyClasses : List String) (profileLabel : String) : Page :=
  { detailClicks := 0, simpleClicks := 0, cards := cards, bodyClasses := bodyClasses,
    profileLabel := profileLabel }

/-- The two kinds of interaction the click handler counts. -/
inductive Interaction where
  | expand
  | collapse
deriving DecidableEq, Repr

/-- Counting one interaction: `detailClicks++` (line 16) or `simpleClicks++` (line 21). -/
def record (k : Interaction) (p : Page) : Page :=
  match k with
  | .expand => { p with detailClicks := numIncr p.detailClicks }
  | .collapse => { p with simpleClicks := numIncr p.simpleClicks }

/-- A sequence of interactions counted one after the other, in order. -/
def recordAll (ks : List Interaction) (p : Page) : Page :=
  ks.foldl (fun q k => record k q) p

/-- The click handler of the toggle button of card `i` (lines 7-23).  A click
on a button that does not exist changes nothing. -/
def toggleClick (i : Nat) (p : Page) : Page :=
  match p.cards[i]? with
  | none => p
  | some card =>
    if card.isHidden then
      let shown : Card :=
        ⟨classRemove card.detailsClasses "hidden", "Hide details"⟩
      record .expand { p with cards := p.cards.set i shown }
    else
      let hidden : Card :=
        ⟨classAdd card.detailsClasses "hidden", "Show more details"⟩
      record .collapse { p with cards := p.cards.set i hidden }

/-- What a call of `adaptInterface` does: it shows the alert and returns, or it
applies the expert profile, or it applies the beginner profile. -/
inductive AdaptResult where
  | alert (msg : String)
  | expert
  | beginner
deriving DecidableEq, Repr

/-- The message of the alert (line 35). -/
def alertMessage : String :=
  "Interact with the modules first so I can learn your preferences!"

/-- The label of the expert profile (line 47). -/
def expertLabel : String := "Current profile: Expert (dense layout, more info visible)"

/-- The label of the beginner profile (line 52). -/
def beginnerLabel : String :=
  "Current profile: Beginner-friendly (larger fonts, less info per card)"

/-- The page after the expert branch (lines 44-47). -/
def applyExpert (p : Page) : Page :=
  { p with bodyClasses := classAdd (classRemove p.bodyClasses "mode-beginner") "mode-expert",
           profileLabel := expertLabel }

/-- The page after the beginner branch (lines 49-52). -/
def applyBeginner (p : Page) : Page :=
  { p with bodyClasses := classAdd (classRemove p.bodyClasses "mode-expert") "mode-beginner",
           profileLabel := beginnerLabel }

/-- The function `adaptInterface` (lines 30-54): the page after the call and what
the call did. -/
def adaptInterface (p : Page) : Page × AdaptResult :=
  let total := numAdd p.detailClicks p.simpleClicks
  if total = 0 then
    (p, .alert alertMessage)
  else
    let detailRatio := numDiv p.detailClicks total
    if lit0_6 < detailRatio then
      (applyExpert p, .expert)
    else
      (applyBeginner p, .beginner)

/-- The counter that an interaction of kind `k` is counted in. -/
def Page.counter (p : Page) : Interaction → Nat
  | .expand => p.detailClicks
  | .collapse => p.simpleClicks

/-- The other kind of interaction. -/
def Interaction.other : Interaction → Interaction
  | .expand => .collapse
  | .collapse => .expand

/-! ## Lemmas on the leading bit -/

theorem log2Fuel_spec (fuel : Nat) : ∀ n, n ≤ fuel → 0 < n →
    2 ^ log2Fuel fuel n ≤ n ∧ n < 2 ^ (log2Fuel fuel n + 1) := by
  induction fuel with
  | zero => intro n h1 h2; omega
  | succ f ih =>
    intro n h1 h2
    unfold log2Fuel
    by_cases h : n < 2
    · simp only [h, if_true]
      omega
    · simp only [h, if_false]
      have hle : n / 2 ≤ f := by omega
      have hpos : 0 < n / 2 := by omega
      obtain ⟨a, b⟩ := ih (n / 2) hle hpos
      constructor
      · rw [pow_succ]; omega
      · rw [pow_succ]; omega

theorem ilog2_le (n : Nat) (h : 0 < n) : 2 ^ ilog2 n ≤ n :=
  (log2Fuel_spec n n le_rfl h).1

theorem ilog2_lt (n : Nat) (h : 0 < n) : n < 2 ^ (ilog2 n + 1) :=
  (log2Fuel_spec n n le_rfl h).2

theorem ilog2_lt_of_lt (n b : Nat) (h : 0 < n) (hb : n < 2 ^ b) : ilog2 n < b := by
  by_contra hc
  have h1 : 2 ^ b ≤ 2 ^ ilog2 n := Nat.pow_le_pow_right (by norm_num) (by omega)
  have h2 := ilog2_le n h
  omega

theorem ilog2_one : ilog2 1 = 0 := by decide


/-! ## Rounding of integers -/

theorem scaled_nonpos (n d j : Nat) : F64.scaled n d (-(j : Int)) = (n * 2 ^ j, d) := by
  simp [F64.scaled]

theorem scaled_nonneg (n d j : Nat) : F64.scaled n d (j : Int) = (n, d * 2 ^ j) := by
  simp [F64.scaled]

theorem round_nat_small (n : Nat) (h0 : 0 < n) (h : n < 2 ^ 53) :
    F64.round n 1 = ⟨n * 2 ^ (52 - ilog2 n), -((52 - ilog2 n : Nat) : Int)⟩ := by
  have hl : ilog2 n < 53 := ilog2_lt_of_lt n 53 h0 h
  have hk : ((ilog2 n : Nat) : Int) - ((ilog2 1 : Nat) : Int) - 52
      = -((52 - ilog2 n : Nat) : Int) := by
    rw [ilog2_one]; omega
  have hlo : 2 ^ 52 ≤ n * 2 ^ (52 - ilog2 n) := by
    calc 2 ^ 52 = 2 ^ (ilog2 n + (52 - ilog2 n)) := by congr 1; omega
      _ = 2 ^ ilog2 n * 2 ^ (52 - ilog2 n) := pow_add _ _ _
      _ ≤ n * 2 ^ (52 - ilog2 n) := Nat.mul_le_mul_right _ (ilog2_le n h0)
  have hhi : n * 2 ^ (52 - ilog2 n) < 2 ^ 53 := by
    calc n * 2 ^ (52 - ilog2 n) < 2 ^ (ilog2 n + 1) * 2 ^ (52 - ilog2 n) :=
          Nat.mul_lt_mul_of_pos_right (ilog2_lt n h0) (by positivity)
      _ = 2 ^ (ilog2 n + 1 + (52 - ilog2 n)) := (pow_add _ _ _).symm
      _ = 2 ^ 53 := by congr 1; omega
  unfold F64.round F64.roundAt F64.exponent
  simp only [hk, scaled_nonpos, Nat.div_one, Nat.mod_one]
  have hn : n ≠ 0 := by omega
  simp only [hn, if_false, Nat.not_lt.mpr hlo]
  have hne : n * 2 ^ (52 - ilog2 n) ≠ 2 ^ 53 := by omega
  simp only [scaled_nonpos, Nat.div_one, Nat.mod_one]
  simp
  omega

theorem toNat_round_small (n : Nat) (h : n < 2 ^ 53) : (F64.round n 1).toNat = n := by
  rcases Nat.eq_zero_or_pos n with h0 | h0
  · subst h0; decide
  · rw [round_nat_small n h0 h]
    simp [F64.toNat]

theorem numAdd_exact (a b : Nat) (h : a + b ≤ 2 ^ 53) : numAdd a b = a + b := by
  unfold numAdd
  rcases Nat.lt_or_ge (a + b) (2 ^ 53) with h1 | h1
  · exact toNat_round_small _ h1
  · have : a + b = 2 ^ 53 := by omega
    rw [this]; decide

theorem numIncr_exact (x : Nat) (h : x < 2 ^ 53) : numIncr x = x + 1 :=
  numAdd_exact x 1 (by omega)

theorem numIncr_top : numIncr (2 ^ 53) = 2 ^ 53 := by decide

/-! ## The exponent chosen by `F64.exponent` normalises the mantissa -/

theorem scaled_first_bounds (n d : Nat) (hn : 0 < n) (hd : 0 < d) (a b : Nat)
    (hab : a + ilog2 n = b + ilog2 d + 52) :
    n * 2 ^ a < 2 ^ 53 * (d * 2 ^ b) ∧ 2 ^ 51 * (d * 2 ^ b) < n * 2 ^ a := by
  constructor
  · calc n * 2 ^ a < 2 ^ (ilog2 n + 1) * 2 ^ a :=
          Nat.mul_lt_mul_of_pos_right (ilog2_lt n hn) (by positivity)
      _ = 2 ^ (ilog2 n + 1 + a) := (pow_add _ _ _).symm
      _ = 2 ^ (53 + (ilog2 d + b)) := by congr 1; omega
      _ = 2 ^ 53 * (2 ^ ilog2 d * 2 ^ b) := by ring
      _ ≤ 2 ^ 53 * (d * 2 ^ b) :=
          Nat.mul_le_mul_left _ (Nat.mul_le_mul_right _ (ilog2_le d hd))
  · calc 2 ^ 51 * (d * 2 ^ b) < 2 ^ 51 * (2 ^ (ilog2 d + 1) * 2 ^ b) :=
          Nat.mul_lt_mul_of_pos_left
            (Nat.mul_lt_mul_of_pos_right (ilog2_lt d hd) (by positivity)) (by positivity)
      _ = 2 ^ (51 + (ilog2 d + 1 + b)) := by ring
      _ = 2 ^ (ilog2 n + a) := by congr 1; omega
      _ = 2 ^ ilog2 n * 2 ^ a := pow_add _ _ _
      _ ≤ n * 2 ^ a := Nat.mul_le_mul_right _ (ilog2_le n hn)

theorem exponent_spec (n d : Nat) (hn : 0 < n) (hd : 0 < d) :
    2 ^ 52 * (F64.scaled n d (F64.exponent n d)).2 ≤ (F64.scaled n d (F64.exponent n d)).1 ∧
    (F64.scaled n d (F64.exponent n d)).1 < 2 ^ 53 * (F64.scaled n d (F64.exponent n d)).2 := by
  unfold F64.exponent
  generalize hk0 : ((ilog2 n : Nat) : Int) - ((ilog2 d : Nat) : Int) - 52 = k0
  have hb := scaled_first_bounds n d hn hd (-k0).toNat k0.toNat (by omega)
  have hden : 0 < d * 2 ^ k0.toNat := by positivity
  simp only [F64.scaled] at hb ⊢
  by_cases hq : n * 2 ^ (-k0).toNat / (d * 2 ^ k0.toNat) < 2 ^ 52
  · rw [if_pos hq]
    have hq2 : n * 2 ^ (-k0).toNat < 2 ^ 52 * (d * 2 ^ k0.toNat) := by
      exact (Nat.div_lt_iff_lt_mul hden).mp hq
    rcases le_or_lt k0 0 with hk | hk
    · have e1 : (-(k0 - 1)).toNat = (-k0).toNat + 1 := by omega
      have e2 : (k0 - 1).toNat = 0 := by omega
      have e3 : k0.toNat = 0 := by omega
      rw [e3] at hb hq2
      rw [e1, e2]
      have hp : n * 2 ^ ((-k0).toNat + 1) = 2 * (n * 2 ^ (-k0).toNat) := by ring
      rw [hp]
      omega
    · have e1 : (-(k0 - 1)).toNat = 0 := by omega
      have e2 : k0.toNat = (k0 - 1).toNat + 1 := by omega
      have e3 : (-k0).toNat = 0 := by omega
      rw [e3, e2] at hb hq2
      rw [e1]
      have hp : d * 2 ^ ((k0 - 1).toNat + 1) = 2 * (d * 2 ^ (k0 - 1).toNat) := by ring
      rw [hp] at hb hq2
      omega
  · rw [if_neg hq]
    have hq2 : 2 ^ 52 * (d * 2 ^ k0.toNat) ≤ n * 2 ^ (-k0).toNat := by
      exact (Nat.le_div_iff_mul_le hden).mp (Nat.not_lt.mp hq)
    exact ⟨hq2, hb.1⟩

/-! ## Comparing a rounded quotient with the literal `0.6` -/

theorem lit0_6_eq : lit0_6 = ⟨5404319552844595, -53⟩ := by decide

theorem lit_lt_iff (x : F64) :
    lit0_6 < x ↔
      5404319552844595 * 2 ^ (-53 - x.expo).toNat < x.mant * 2 ^ (x.expo + 53).toNat := by
  rw [lit0_6_eq]
  show 5404319552844595 * 2 ^ ((-53 : Int) - x.expo).toNat
      < x.mant * 2 ^ (x.expo - (-53 : Int)).toNat ↔ _
  rw [show x.expo - (-53 : Int) = x.expo + 53 by omega]

/-- The result of `F64.roundAt` when the truncated mantissa is normalised. -/
theorem roundAt_eq (n d : Nat) (k : Int)
    (hq : (F64.scaled n d k).1 / (F64.scaled n d k).2 < 2 ^ 53) :
    F64.roundAt n d k =
      if (F64.scaled n d k).2 < 2 * ((F64.scaled n d k).1 % (F64.scaled n d k).2) ∨
          ((F64.scaled n d k).2 = 2 * ((F64.scaled n d k).1 % (F64.scaled n d k).2) ∧
            (F64.scaled n d k).1 / (F64.scaled n d k).2 % 2 = 1) then
        (if (F64.scaled n d k).1 / (F64.scaled n d k).2 + 1 = 2 ^ 53 then ⟨2 ^ 52, k + 1⟩
          else ⟨(F64.scaled n d k).1 / (F64.scaled n d k).2 + 1, k⟩)
      else ⟨(F64.scaled n d k).1 / (F64.scaled n d k).2, k⟩ := by
  unfold F64.roundAt
  simp only []
  split_ifs with h1 h2 h3 <;> first | rfl | omega

theorem roundAt_norm (n d : Nat) (k : Int)
    (hlo : 2 ^ 52 ≤ (F64.scaled n d k).1 / (F64.scaled n d k).2)
    (hhi : (F64.scaled n d k).1 / (F64.scaled n d k).2 < 2 ^ 53) :
    2 ^ 52 ≤ (F64.roundAt n d k).mant ∧ (F64.roundAt n d k).mant < 2 ^ 53 ∧
      k ≤ (F64.roundAt n d k).expo ∧ (F64.roundAt n d k).expo ≤ k + 1 ∧
      ((F64.roundAt n d k).expo = k + 1 → (F64.roundAt n d k).mant = 2 ^ 52) := by
  rw [roundAt_eq n d k hhi]
  split_ifs with h1 h2 <;> simp <;> omega

theorem pow_toNat_ge_two (j : Int) (h : 1 ≤ j) : 2 ≤ 2 ^ j.toNat := by
  calc 2 = 2 ^ 1 := by norm_num
    _ ≤ 2 ^ j.toNat := Nat.pow_le_pow_right (by norm_num) (by omega)

theorem pow_toNat_pos (j : Int) : 1 ≤ 2 ^ j.toNat := Nat.one_le_two_pow

/-- The comparison `0.6 < e / t` of the script, in exact arithmetic: the rounded
quotient lies above the binary64 value of `0.6` exactly when the exact quotient
is at least the midpoint `10808639105689191 / 2 ^ 54` between that value and
the next binary64 value. -/
theorem lit_lt_round_iff (e t : Nat) (ht : 0 < t) :
    lit0_6 < F64.round e t ↔ 10808639105689191 * t ≤ e * 2 ^ 54 := by
  rcases Nat.eq_zero_or_pos e with he | he
  · subst he
    rw [lit_lt_iff]
    simp [F64.round]
    omega
  have hround : F64.round e t = F64.roundAt e t (F64.exponent e t) := by
    unfold F64.round
    rw [if_neg (by omega)]
  rw [hround]
  obtain ⟨hlo, hhi⟩ := exponent_spec e t he ht
  generalize F64.exponent e t = k at hlo hhi ⊢
  have hden : 0 < (F64.scaled e t k).2 := by
    simp only [F64.scaled]; positivity
  have hqlo : 2 ^ 52 ≤ (F64.scaled e t k).1 / (F64.scaled e t k).2 :=
    (Nat.le_div_iff_mul_le hden).mpr hlo
  have hqhi : (F64.scaled e t k).1 / (F64.scaled e t k).2 < 2 ^ 53 :=
    (Nat.div_lt_iff_lt_mul hden).mpr hhi
  rw [lit_lt_iff]
  rcases lt_trichotomy k (-53) with hk | hk | hk
  · -- the quotient is below 1/2
    obtain ⟨m1, m2, x1, x2, x3⟩ := roundAt_norm e t k hqlo hqhi
    have hfalse : ¬ (10808639105689191 * t ≤ e * 2 ^ 54) := by
      simp only [F64.scaled] at hhi
      have e1 : k.toNat = 0 := by omega
      rw [e1, pow_zero, Nat.mul_one] at hhi
      have e2 : e * 2 ^ 54 ≤ e * 2 ^ (-k).toNat :=
        Nat.mul_le_mul_left _ (Nat.pow_le_pow_right (by norm_num) (by omega))
      omega
    have hfalse2 : ¬ (5404319552844595 * 2 ^ (-53 - (F64.roundAt e t k).expo).toNat
        < (F64.roundAt e t k).mant * 2 ^ ((F64.roundAt e t k).expo + 53).toNat) := by
      have e1 : ((F64.roundAt e t k).expo + 53).toNat = 0 := by omega
      rw [e1, pow_zero, Nat.mul_one]
      rcases eq_or_lt_of_le x2 with h | h
      · have hm := x3 h
        have := pow_toNat_pos (-53 - (F64.roundAt e t k).expo)
        have : 5404319552844595 * 1 ≤
            5404319552844595 * 2 ^ (-53 - (F64.roundAt e t k).expo).toNat :=
          Nat.mul_le_mul_left _ this
        omega
      · have := pow_toNat_ge_two (-53 - (F64.roundAt e t k).expo) (by omega)
        have : 5404319552844595 * 2 ≤
            5404319552844595 * 2 ^ (-53 - (F64.roundAt e t k).expo).toNat :=
          Nat.mul_le_mul_left _ this
        omega
    exact ⟨fun h => absurd h hfalse2, fun h => absurd h hfalse⟩
  · -- the quotient is in [1/2, 1)
    subst hk
    rw [roundAt_eq e t (-53) hqhi]
    have hs : F64.scaled e t (-53) = (e * 2 ^ 53, t) := by
      simp [F64.scaled]
    rw [hs] at hlo hhi hqlo hqhi ⊢
    simp only [] at hlo hhi hqlo hqhi ⊢
    have hdm := Nat.div_add_mod (e * 2 ^ 53) t
    have hml := Nat.mod_lt (e * 2 ^ 53) ht
    have h54 : e * 2 ^ 54 = 2 * (e * 2 ^ 53) := by ring
    rw [h54]
    generalize hq : e * 2 ^ 53 / t = q at hdm hqlo hqhi ⊢
    generalize hr : e * 2 ^ 53 % t = r at hdm hml ⊢
    generalize e * 2 ^ 53 = num at hdm hlo hhi
    subst hdm
    rcases lt_trichotomy q 5404319552844595 with h | h | h
    · have hmul : t * (q + 1) ≤ t * 5404319552844595 := Nat.mul_le_mul_left _ (by omega)
      have hexp : t * (q + 1) = t * q + t := by ring
      split_ifs with h1 h2 <;> simp <;> omega
    · subst h
      split_ifs with h1 h2 <;> simp <;> omega
    · have hmul : t * 5404319552844596 ≤ t * q := Nat.mul_le_mul_left _ (by omega)
      split_ifs with h1 h2 <;> simp <;> omega
  · -- the quotient is at least 1
    obtain ⟨m1, m2, x1, x2, x3⟩ := roundAt_norm e t k hqlo hqhi
    have htrue : 10808639105689191 * t ≤ e * 2 ^ 54 := by
      simp only [F64.scaled] at hlo
      have e1 : e * 2 ^ (-k).toNat ≤ e * 2 ^ 52 :=
        Nat.mul_le_mul_left _ (Nat.pow_le_pow_right (by norm_num) (by omega))
      have e2 : t * 1 ≤ t * 2 ^ k.toNat := Nat.mul_le_mul_left _ (pow_toNat_pos _)
      have e3 : 2 ^ 52 * (t * 1) ≤ 2 ^ 52 * (t * 2 ^ k.toNat) := Nat.mul_le_mul_left _ e2
      omega
    have htrue2 : 5404319552844595 * 2 ^ (-53 - (F64.roundAt e t k).expo).toNat
        < (F64.roundAt e t k).mant * 2 ^ ((F64.roundAt e t k).expo + 53).toNat := by
      have e1 : (-53 - (F64.roundAt e t k).expo).toNat = 0 := by omega
      rw [e1, pow_zero, Nat.mul_one]
      have := pow_toNat_ge_two ((F64.roundAt e t k).expo + 53) (by omega)
      have : (F64.roundAt e t k).mant * 2 ≤
          (F64.roundAt e t k).mant * 2 ^ ((F64.roundAt e t k).expo + 53).toNat :=
        Nat.mul_le_mul_left _ this
      omega
    exact ⟨fun _ => htrue, fun _ => htrue2⟩

/-! ## The sum of the counters is zero only when both are zero -/

theorem toNat_round_pos (n : Nat) (hn : 0 < n) : 0 < (F64.round n 1).toNat := by
  have hround : F64.round n 1 = F64.roundAt n 1 (F64.exponent n 1) := by
    unfold F64.round
    rw [if_neg (by omega)]
  rw [hround]
  obtain ⟨hlo, hhi⟩ := exponent_spec n 1 hn Nat.one_pos
  generalize F64.exponent n 1 = k at hlo hhi ⊢
  have hden : 0 < (F64.scaled n 1 k).2 := by
    simp only [F64.scaled]; positivity
  have hqlo : 2 ^ 52 ≤ (F64.scaled n 1 k).1 / (F64.scaled n 1 k).2 :=
    (Nat.le_div_iff_mul_le hden).mpr hlo
  have hqhi : (F64.scaled n 1 k).1 / (F64.scaled n 1 k).2 < 2 ^ 53 :=
    (Nat.div_lt_iff_lt_mul hden).mpr hhi
  obtain ⟨m1, _, x1, _, _⟩ := roundAt_norm n 1 k hqlo hqhi
  have hk : -52 ≤ k := by
    by_contra hc
    simp only [F64.scaled] at hhi
    have e1 : k.toNat = 0 := by omega
    rw [e1, pow_zero, Nat.mul_one, Nat.mul_one] at hhi
    have e2 : 2 ^ 53 ≤ 2 ^ (-k).toNat := Nat.pow_le_pow_right (by norm_num) (by omega)
    have e3 : 1 * 2 ^ (-k).toNat ≤ n * 2 ^ (-k).toNat := Nat.mul_le_mul_right _ hn
    omega
  unfold F64.toNat
  apply Nat.div_pos _ (by positivity)
  have e1 : 2 ^ (-(F64.roundAt n 1 k).expo).toNat ≤ 2 ^ 52 :=
    Nat.pow_le_pow_right (by norm_num) (by omega)
  have e2 : (F64.roundAt n 1 k).mant * 1
      ≤ (F64.roundAt n 1 k).mant * 2 ^ (F64.roundAt n 1 k).expo.toNat :=
    Nat.mul_le_mul_left _ (pow_toNat_pos _)
  omega

theorem numAdd_eq_zero_iff (a b : Nat) : numAdd a b = 0 ↔ a + b = 0 := by
  unfold numAdd
  constructor
  · intro h
    by_contra hc
    have := toNat_round_pos (a + b) (by omega)
    omega
  · intro h
    rw [h]; decide

theorem numIncr_eq_min (x : Nat) (h : x ≤ 2 ^ 53) : numIncr x = min (x + 1) (2 ^ 53) := by
  rcases Nat.lt_or_ge x (2 ^ 53) with h1 | h1
  · rw [numIncr_exact x h1]; omega
  · have : x = 2 ^ 53 := by omega
    rw [this, numIncr_top]; decide

/-! ## Class lists -/

theorem mem_classAdd (cs : List String) (c x : String) :
    x ∈ classAdd cs c ↔ x ∈ cs ∨ x = c := by
  unfold classAdd
  split_ifs with h
  · constructor
    · intro hx; exact Or.inl hx
    · rintro (hx | hx)
      · exact hx
      · rw [hx]; exact h
  · simp

theorem classAdd_of_mem (cs : List String) (c : String) (h : c ∈ cs) : classAdd cs c = cs := by
  unfold classAdd
  rw [if_pos h]

theorem mem_classRemove (cs : List String) (c x : String) :
    x ∈ classRemove cs c ↔ x ∈ cs ∧ x ≠ c := by
  simp [classRemove]

theorem classRemove_of_not_mem (cs : List String) (c : String) (h : c ∉ cs) :
    classRemove cs c = cs := by
  unfold classRemove
  rw [List.filter_eq_self]
  intro x hx
  simp only [ne_eq, decide_not, Bool.not_eq_true', decide_eq_false_iff_not]
  intro hxc
  exact h (hxc ▸ hx)

/-- Setting a class and clearing another one is idempotent. -/
theorem classSwap_idem (cs : List String) (gone kept : String) (hne : kept ≠ gone) :
    classAdd (classRemove (classAdd (classRemove cs gone) kept) gone) kept
      = classAdd (classRemove cs gone) kept := by
  have h1 : gone ∉ classAdd (classRemove cs gone) kept := by
    rw [mem_classAdd, mem_classRemove]
    rintro (⟨_, h⟩ | h)
    · exact h rfl
    · exact hne h.symm
  rw [classRemove_of_not_mem _ _ h1]
  apply classAdd_of_mem
  rw [mem_classAdd]
  exact Or.inr rfl

theorem applyExpert_idem (p : Page) : applyExpert (applyExpert p) = applyExpert p := by
  unfold applyExpert
  simp only [classSwap_idem p.bodyClasses "mode-beginner" "mode-expert" (by decide)]

theorem applyBeginner_idem (p : Page) : applyBeginner (applyBeginner p) = applyBeginner p := by
  unfold applyBeginner
  simp only [classSwap_idem p.bodyClasses "mode-expert" "mode-beginner" (by decide)]

/-! ## `adaptInterface` by cases -/

theorem adapt_of_zero (p : Page) (h : p.detailClicks + p.simpleClicks = 0) :
    adaptInterface p = (p, .alert alertMessage) := by
  unfold adaptInterface
  simp only []
  rw [if_pos ((numAdd_eq_zero_iff _ _).mpr h)]

theorem adapt_of_pos (p : Page) (h : p.detailClicks + p.simpleClicks ≠ 0) :
    adaptInterface p =
      if lit0_6 < numDiv p.detailClicks (numAdd p.detailClicks p.simpleClicks) then
        (applyExpert p, .expert)
      else (applyBeginner p, .beginner) := by
  unfold adaptInterface
  simp only []
  rw [if_neg (fun hc => h ((numAdd_eq_zero_iff _ _).mp hc))]

/-- With an exactly representable total, the expert branch is taken exactly
when the exact ratio reaches the rounding midpoint above `0.6`. -/
theorem adapt_midpoint (p : Page) (h : p.detailClicks + p.simpleClicks ≠ 0)
    (hb : p.detailClicks + p.simpleClicks ≤ 2 ^ 53) :
    adaptInterface p =
      if 10808639105689191 * (p.detailClicks + p.simpleClicks) ≤ p.detailClicks * 2 ^ 54 then
        (applyExpert p, .expert)
      else (applyBeginner p, .beginner) := by
  rw [adapt_of_pos p h, numAdd_exact _ _ hb]
  unfold numDiv
  by_cases hc : 10808639105689191 * (p.detailClicks + p.simpleClicks) ≤ p.detailClicks * 2 ^ 54
  · rw [if_pos hc, if_pos ((lit_lt_round_iff _ _ (by omega)).mpr hc)]
  · rw [if_neg hc, if_neg (fun h2 => hc ((lit_lt_round_iff _ _ (by omega)).mp h2))]

theorem ratio_gt_iff (e c : Nat) (h : 0 < e + c) :
    (6 : ℚ) / 10 < (e : ℚ) / ((e : ℚ) + (c : ℚ)) ↔ 3 * (e + c) < 5 * e := by
  have hpos : (0 : ℚ) < (e : ℚ) + (c : ℚ) := by exact_mod_cast h
  rw [lt_div_iff₀ hpos]
  constructor
  · intro h1
    have h2 : (3 : ℚ) * ((e : ℚ) + (c : ℚ)) < 5 * (e : ℚ) := by linarith
    exact_mod_cast h2
  · intro h1
    have h2 : (3 : ℚ) * ((e : ℚ) + (c : ℚ)) < 5 * (e : ℚ) := by exact_mod_cast h1
    linarith

/-! ## Counting a sequence of interactions -/

theorem min_succ_add (x B c : Nat) : min (min (x + 1) B + c) B = min (x + (c + 1)) B := by
  omega

theorem recordAll_counters (ks : List Interaction) : ∀ p : Page,
    p.detailClicks ≤ 2 ^ 53 → p.simpleClicks ≤ 2 ^ 53 →
    (recordAll ks p).detailClicks = min (p.detailClicks + ks.count .expand) (2 ^ 53) ∧
    (recordAll ks p).simpleClicks = min (p.simpleClicks + ks.count .collapse) (2 ^ 53) ∧
    (recordAll ks p).cards = p.cards ∧ (recordAll ks p).bodyClasses = p.bodyClasses ∧
    (recordAll ks p).profileLabel = p.profileLabel := by
  have hincr : ∀ x, x ≤ 2 ^ 53 → numIncr x = min (x + 1) (2 ^ 53) := numIncr_eq_min
  generalize (2 : Nat) ^ 53 = B at hincr ⊢
  induction ks with
  | nil =>
    intro p h1 h2
    refine ⟨?_, ?_, rfl, rfl, rfl⟩
    · show p.detailClicks = _
      rw [List.count_nil, Nat.add_zero, Nat.min_eq_left h1]
    · show p.simpleClicks = _
      rw [List.count_nil, Nat.add_zero, Nat.min_eq_left h2]
  | cons k ks ih =>
    intro p h1 h2
    have hstep : recordAll (k :: ks) p = recordAll ks (record k p) := rfl
    rw [hstep]
    cases k with
    | expand =>
      have e1 : (record .expand p).detailClicks = min (p.detailClicks + 1) B := hincr _ h1
      have e2 : (record .expand p).simpleClicks = p.simpleClicks := rfl
      obtain ⟨a, b, c, d, e⟩ :=
        ih (record .expand p) (by rw [e1]; exact Nat.min_le_right _ _) (by rw [e2]; exact h2)
      rw [a, b, c, d, e, e1, e2]
      have c1 : (Interaction.expand :: ks).count .expand = ks.count .expand + 1 := by simp
      have c2 : (Interaction.expand :: ks).count .collapse = ks.count .collapse := by simp
      rw [c1, c2]
      exact ⟨min_succ_add _ _ _, rfl, rfl, rfl, rfl⟩
    | collapse =>
      have e1 : (record .collapse p).simpleClicks = min (p.simpleClicks + 1) B := hincr _ h2
      have e2 : (record .collapse p).detailClicks = p.detailClicks := rfl
      obtain ⟨a, b, c, d, e⟩ :=
        ih (record .collapse p) (by rw [e2]; exact h1) (by rw [e1]; exact Nat.min_le_right _ _)
      rw [a, b, c, d, e, e1, e2]
      have c1 : (Interaction.collapse :: ks).count .collapse = ks.count .collapse + 1 := by simp
      have c2 : (Interaction.collapse :: ks).count .expand = ks.count .expand := by simp
      rw [c1, c2]
      exact ⟨rfl, min_succ_add _ _ _, rfl, rfl, rfl⟩

/-! ## Classification against the threshold -/

/-- C1, as stated, fails for very large counters: with `detailClicks =
3602879701896398` and `simpleClicks = 2401919801264265` the exact ratio is above
`0.6`, but the quotient computed by the script rounds to the binary64 value of
`0.6` and `adaptInterface` applies the beginner profile. -/
theorem adapt_ratio_counterexample :
    (adaptInterface (Page.mk 3602879701896398 2401919801264265 [] [] "")).2
      = AdaptResult.beginner ∧
    (6 : ℚ) / 10 < (3602879701896398 : ℚ) / ((3602879701896398 : ℚ) + (2401919801264265 : ℚ)) :=
  ⟨by decide, by norm_num⟩

/-- C1 (amended): for counters `e = detailClicks`, `c = simpleClicks` with
`0 < e + c` and `e + c < 6004799503160663` (the total of the counterexample,
the least total at which the rule fails), `adaptInterface` applies the expert
profile if and only if `e / (e + c) > 0.6` in exact arithmetic, and the beginner
profile if and only if not. -/
theorem adapt_expert_iff_ratio (p : Page) (hpos : 0 < p.detailClicks + p.simpleClicks)
    (hb : p.detailClicks + p.simpleClicks < 6004799503160663) :
    (adaptInterface p = (applyExpert p, AdaptResult.expert) ↔
      (6 : ℚ) / 10 < (p.detailClicks : ℚ) / ((p.detailClicks : ℚ) + (p.simpleClicks : ℚ))) ∧
    (adaptInterface p = (applyBeginner p, AdaptResult.beginner) ↔
      ¬ ((6 : ℚ) / 10 < (p.detailClicks : ℚ) / ((p.detailClicks : ℚ) + (p.simpleClicks : ℚ)))) := by
  have h53 : p.detailClicks + p.simpleClicks ≤ 2 ^ 53 :=
    le_trans (Nat.le_of_lt hb) (by decide)
  rw [adapt_midpoint p (by omega) h53, ratio_gt_iff _ _ hpos]
  have hmid : 10808639105689191 * (p.detailClicks + p.simpleClicks) ≤ p.detailClicks * 2 ^ 54 ↔
      3 * (p.detailClicks + p.simpleClicks) < 5 * p.detailClicks := by
    generalize p.detailClicks + p.simpleClicks = t at hb hpos
    generalize p.detailClicks = e
    rcases Nat.lt_or_ge t 6004799503160662 with h1 | h1
    · omega
    · have ht : t = 6004799503160662 := by omega
      subst ht
      omega
  by_cases h : 3 * (p.detailClicks + p.simpleClicks) < 5 * p.detailClicks
  · rw [if_pos (hmid.mpr h)]
    simp [h]
  · rw [if_neg (fun h2 => h (hmid.mp h2))]
    simp [h]

/-- C1, witness: 61 expansions and 39 collapses select the expert profile. -/
theorem adapt_expert_iff_ratio_witness :
    adaptInterface (Page.mk 61 39 [] ["mode-beginner"] "")
      = (Page.mk 61 39 [] ["mode-expert"] expertLabel, AdaptResult.expert) :=
  ((adapt_expert_iff_ratio (Page.mk 61 39 [] ["mode-beginner"] "") (by decide) (by decide)).1).mpr
    (by norm_num)

/-- C2: `adaptInterface` shows the alert exactly when both counters are zero; in
every other state it applies the expert or the beginner profile. -/
theorem adapt_alert_iff (p : Page) :
    ((adaptInterface p).2 = AdaptResult.alert alertMessage ↔
      p.detailClicks + p.simpleClicks = 0) ∧
    ((p.detailClicks + p.simpleClicks = 0 ∧
        adaptInterface p = (p, AdaptResult.alert alertMessage)) ∨
      (p.detailClicks + p.simpleClicks ≠ 0 ∧
        (adaptInterface p = (applyExpert p, AdaptResult.expert) ∨
          adaptInterface p = (applyBeginner p, AdaptResult.beginner)))) := by
  by_cases h : p.detailClicks + p.simpleClicks = 0
  · rw [adapt_of_zero p h]
    simp [h]
  · rw [adapt_of_pos p h]
    split_ifs <;> simp [h]

/-- C3, as stated, fails for very large counters: with `k = 1801439850948201`,
`detailClicks = 3 * k` and `simpleClicks = 2 * k` the total is rounded down by
`+`, the quotient computed by the script lies above the binary64 value of `0.6`
and `adaptInterface` applies the expert profile. -/
theorem adapt_boundary_counterexample :
    (adaptInterface (Page.mk (3 * 1801439850948201) (2 * 1801439850948201) [] [] "")).2
      = AdaptResult.expert := by
  decide

/-- C3 (amended): for counters `detailClicks = 3 * k`, `simpleClicks = 2 * k`
with `1 ≤ k` and `k < 1801439850948201` (the `k` of the counterexample, the least
one at which the rule fails), the ratio is exactly `0.6` and `adaptInterface`
applies the beginner profile, not the expert profile. -/
theorem adapt_boundary_beginner (p : Page) (k : Nat) (hk : 1 ≤ k)
    (hb : k < 1801439850948201)
    (he : p.detailClicks = 3 * k) (hc : p.simpleClicks = 2 * k) :
    (p.detailClicks : ℚ) / ((p.detailClicks : ℚ) + (p.simpleClicks : ℚ)) = 6 / 10 ∧
    adaptInterface p = (applyBeginner p, AdaptResult.beginner) ∧
    (adaptInterface p).2 ≠ AdaptResult.expert := by
  have hbeg : adaptInterface p = (applyBeginner p, AdaptResult.beginner) := by
    rcases Nat.lt_or_ge k 1801439850948199 with h1 | h1
    · -- the total is a binary64 value
      have h53 : p.detailClicks + p.simpleClicks ≤ 2 ^ 53 := by
        rw [he, hc]
        exact le_trans (show 3 * k + 2 * k ≤ 5 * 1801439850948198 by omega) (by decide)
      rw [adapt_midpoint p (by omega) h53]
      have hmid : ¬ (10808639105689191 * (p.detailClicks + p.simpleClicks)
          ≤ p.detailClicks * 2 ^ 54) := by
        rw [he, hc]
        omega
      rw [if_neg hmid]
    · -- the two totals above `2 ^ 53`: one is rounded up, the other is exact
      rw [adapt_of_pos p (by omega), he, hc]
      rcases Nat.eq_or_lt_of_le h1 with h2 | h2
      · rw [← h2]
        exact if_neg (by decide)
      · have h3 : k = 1801439850948200 := by omega
        rw [h3]
        exact if_neg (by decide)
  refine ⟨?_, hbeg, ?_⟩
  · rw [he, hc]
    have hk0 : (k : ℚ) ≠ 0 := by
      have : (0 : ℚ) < (k : ℚ) := by exact_mod_cast hk
      exact ne_of_gt this
    push_cast
    field_simp
    ring
  · rw [hbeg]
    simp

/-- C3, witness: 3 expansions and 2 collapses select the beginner profile. -/
theorem adapt_boundary_beginner_witness :
    1 ≤ 1 ∧ (3 : ℚ) / ((3 : ℚ) + (2 : ℚ)) = 6 / 10 ∧
    adaptInterface (Page.mk 3 2 [] ["mode-expert"] "")
      = (Page.mk 3 2 [] ["mode-beginner"] beginnerLabel, AdaptResult.beginner) :=
  have h := adapt_boundary_beginner (Page.mk 3 2 [] ["mode-expert"] "") 1
    (by decide) (by decide) rfl rfl
  ⟨by decide, by norm_num, h.2.1⟩

/-! ## Recording interactions -/

theorem length_eq_count_add (ks : List Interaction) :
    ks.length = ks.count .expand + ks.count .collapse := by
  induction ks with
  | nil => rfl
  | cons k ks ih =>
    cases k <;> simp [ih] <;> omega

/-- C4, as stated, fails at the largest counter value: a counter that holds
`2 ^ 53` is left at `2 ^ 53` by `++`, because `2 ^ 53 + 1` is not a binary64
value. -/
theorem record_top_counterexample :
    (record Interaction.expand (Page.mk (2 ^ 53) 0 [] [] "")).detailClicks = 2 ^ 53 ∧
    (record Interaction.expand (Page.mk (2 ^ 53) 0 [] [] "")).detailClicks ≠ 2 ^ 53 + 1 := by
  decide

/-- C4 (amended): for every state and every interaction kind whose counter is
below `2 ^ 53`, recording one event increments that counter by exactly 1 and
leaves the other counter and the document unchanged; `record` is total. -/
theorem record_increments (p : Page) (k : Interaction) (h : p.counter k < 2 ^ 53) :
    (record k p).counter k = p.counter k + 1 ∧
    (record k p).counter k.other = p.counter k.other ∧
    (record k p).cards = p.cards ∧ (record k p).bodyClasses = p.bodyClasses ∧
    (record k p).profileLabel = p.profileLabel := by
  cases k with
  | expand => exact ⟨numIncr_exact _ h, rfl, rfl, rfl, rfl⟩
  | collapse => exact ⟨numIncr_exact _ h, rfl, rfl, rfl, rfl⟩

/-- C4, witness: an expansion recorded in the state (7, 4) gives (8, 4). -/
theorem record_increments_witness :
    (record Interaction.expand (Page.mk 7 4 [] [] "")).detailClicks = 7 + 1 ∧
    (record Interaction.expand (Page.mk 7 4 [] [] "")).simpleClicks = 4 :=
  have h := record_increments (Page.mk 7 4 [] [] "") Interaction.expand (by decide)
  ⟨h.1, h.2.1⟩

/-- C5, as stated, fails for a sequence of more than `2 ^ 53` events of one kind:
after `2 ^ 53 + 1` expansions `detailClicks` is `2 ^ 53`, not the number of
expansions. -/
theorem recordAll_count_counterexample :
    (recordAll (List.replicate (2 ^ 53 + 1) Interaction.expand) (Page.init [] [] "")).detailClicks
      ≠ (List.replicate (2 ^ 53 + 1) Interaction.expand).count Interaction.expand := by
  have h := (recordAll_counters (List.replicate (2 ^ 53 + 1) Interaction.expand)
    (Page.init [] [] "") (Nat.zero_le _) (Nat.zero_le _)).1
  rw [h, List.count_replicate_self]
  show min (0 + (2 ^ 53 + 1)) (2 ^ 53) ≠ 2 ^ 53 + 1
  generalize (2 : Nat) ^ 53 = B
  omega

/-- C5 (amended): starting from the initial state, after any sequence of recorded
events with at most `2 ^ 53` events of each kind, in any interleaving,
`detailClicks` is the number of expansions and `simpleClicks` the number of
collapses in the sequence, and their sum is the length of the sequence; the
document is unchanged. -/
theorem recordAll_counts (ks : List Interaction) (cards : List Card) (body : List String)
    (label : String) (he : ks.count Interaction.expand ≤ 2 ^ 53)
    (hc : ks.count Interaction.collapse ≤ 2 ^ 53) :
    (recordAll ks (Page.init cards body label)).detailClicks = ks.count Interaction.expand ∧
    (recordAll ks (Page.init cards body label)).simpleClicks = ks.count Interaction.collapse ∧
    (recordAll ks (Page.init cards body label)).detailClicks +
      (recordAll ks (Page.init cards body label)).simpleClicks = ks.length := by
  obtain ⟨a, b, _, _, _⟩ := recordAll_counters ks (Page.init cards body label)
    (Nat.zero_le _) (Nat.zero_le _)
  have a2 : (recordAll ks (Page.init cards body label)).detailClicks
      = ks.count Interaction.expand := by
    rw [a]
    show min (0 + _) _ = _
    rw [Nat.zero_add, Nat.min_eq_left he]
  have b2 : (recordAll ks (Page.init cards body label)).simpleClicks
      = ks.count Interaction.collapse := by
    rw [b]
    show min (0 + _) _ = _
    rw [Nat.zero_add, Nat.min_eq_left hc]
  exact ⟨a2, b2, by rw [a2, b2, length_eq_count_add]⟩

/-- C5, witness: five expansions and three collapses, interleaved, give (5, 3). -/
theorem recordAll_counts_witness :
    (recordAll [.collapse, .expand, .expand, .collapse, .expand, .expand, .collapse, .expand]
      (Page.init [] [] "")).detailClicks = 5 ∧
    (recordAll [.collapse, .expand, .expand, .collapse, .expand, .expand, .collapse, .expand]
      (Page.init [] [] "")).simpleClicks = 3 :=
  have h := recordAll_counts
    [.collapse, .expand, .expand, .collapse, .expand, .expand, .collapse, .expand] [] [] ""
    (by decide) (by decide)
  ⟨h.1, h.2.1⟩

/-! ## The two sequences of the specification -/

/-- C6, as stated, fails: the sequence E,E,C,E,C,E,C has four expansions, not
five.  Recorded from the initial state it gives the counters (4, 3), and
`adaptInterface` then applies the beginner profile, while E,E,E,E,E,C,C,C gives
(5, 3) and the expert profile. -/
theorem sequences_counterexample :
    (recordAll [.expand, .expand, .collapse, .expand, .collapse, .expand, .collapse]
      (Page.init [] [] "")).detailClicks = 4 ∧
    (recordAll [.expand, .expand, .collapse, .expand, .collapse, .expand, .collapse]
      (Page.init [] [] "")).simpleClicks = 3 ∧
    (recordAll [.expand, .expand, .expand, .expand, .expand, .collapse, .collapse, .collapse]
      (Page.init [] [] "")).detailClicks = 5 ∧
    (recordAll [.expand, .expand, .expand, .expand, .expand, .collapse, .collapse, .collapse]
      (Page.init [] [] "")).simpleClicks = 3 ∧
    (adaptInterface (recordAll
      [.expand, .expand, .collapse, .expand, .collapse, .expand, .collapse]
      (Page.init [] [] ""))).2 = AdaptResult.beginner ∧
    (adaptInterface (recordAll
      [.expand, .expand, .expand, .expand, .expand, .collapse, .collapse, .collapse]
      (Page.init [] [] ""))).2 = AdaptResult.expert := by
  decide

/-- C6 (amended): over any document, the sequences E,E,C,E,C,E,C,E and
E,E,E,E,E,C,C,C (five expansions and three collapses each), recorded from the
initial state, produce the same state, with counters (5, 3), and the same result
of `adaptInterface`, the expert profile. -/
theorem sequences_same_counts (cards : List Card) (body : List String) (label : String) :
    recordAll [.expand, .expand, .collapse, .expand, .collapse, .expand, .collapse, .expand]
        (Page.init cards body label)
      = recordAll [.expand, .expand, .expand, .expand, .expand, .collapse, .collapse, .collapse]
        (Page.init cards body label) ∧
    (recordAll [.expand, .expand, .expand, .expand, .expand, .collapse, .collapse, .collapse]
        (Page.init cards body label)).detailClicks = 5 ∧
    (recordAll [.expand, .expand, .expand, .expand, .expand, .collapse, .collapse, .collapse]
        (Page.init cards body label)).simpleClicks = 3 ∧
    adaptInterface (recordAll
        [.expand, .expand, .collapse, .expand, .collapse, .expand, .collapse, .expand]
        (Page.init cards body label))
      = adaptInterface (recordAll
        [.expand, .expand, .expand, .expand, .expand, .collapse, .collapse, .collapse]
        (Page.init cards body label)) ∧
    (adaptInterface (recordAll
        [.expand, .expand, .expand, .expand, .expand, .collapse, .collapse, .collapse]
        (Page.init cards body label))).2 = AdaptResult.expert := by
  have h1 : recordAll
      [.expand, .expand, .collapse, .expand, .collapse, .expand, .collapse, .expand]
      (Page.init cards body label) = Page.mk 5 3 cards body label := by
    simp [recordAll, record, Page.init, numIncr_exact]
  have h2 : recordAll
      [.expand, .expand, .expand, .expand, .expand, .collapse, .collapse, .collapse]
      (Page.init cards body label) = Page.mk 5 3 cards body label := by
    simp [recordAll, record, Page.init, numIncr_exact]
  rw [h1, h2]
  refine ⟨rfl, rfl, rfl, rfl, ?_⟩
  have h5 : (5 : Nat) + 3 ≠ 0 := by decide
  have h6 : (5 : Nat) + 3 ≤ 2 ^ 53 := by decide
  have h7 : 10808639105689191 * ((5 : Nat) + 3) ≤ 5 * 2 ^ 54 := by decide
  rw [adapt_midpoint (Page.mk 5 3 cards body label) h5 h6]
  exact congrArg Prod.snd (if_pos h7)

/-! ## `adaptInterface` and the state -/

/-- C7: in every state `adaptInterface` leaves `detailClicks` and `simpleClicks`
as they are, whether it shows the alert or applies a profile; an event recorded
after the call is counted on top of the counters from before the call. -/
theorem adapt_keeps_counters (p : Page) :
    (adaptInterface p).1.detailClicks = p.detailClicks ∧
    (adaptInterface p).1.simpleClicks = p.simpleClicks ∧
    (∀ k : Interaction,
      (record k (adaptInterface p).1).detailClicks = (record k p).detailClicks ∧
      (record k (adaptInterface p).1).simpleClicks = (record k p).simpleClicks) := by
  by_cases h : p.detailClicks + p.simpleClicks = 0
  · rw [adapt_of_zero p h]
    exact ⟨rfl, rfl, fun k => ⟨rfl, rfl⟩⟩
  · rw [adapt_of_pos p h]
    split_ifs
    · exact ⟨rfl, rfl, fun k => by cases k <;> exact ⟨rfl, rfl⟩⟩
    · exact ⟨rfl, rfl, fun k => by cases k <;> exact ⟨rfl, rfl⟩⟩

/-- C8: in every state, a second call of `adaptInterface` right after the first
has the same outcome as the first and leaves the state of the first. -/
theorem adapt_idempotent (p : Page) :
    (adaptInterface (adaptInterface p).1).2 = (adaptInterface p).2 ∧
    (adaptInterface (adaptInterface p).1).1 = (adaptInterface p).1 := by
  by_cases h : p.detailClicks + p.simpleClicks = 0
  · rw [adapt_of_zero p h]
    show (adaptInterface p).2 = _ ∧ (adaptInterface p).1 = _
    rw [adapt_of_zero p h]
    exact ⟨rfl, rfl⟩
  · rw [adapt_of_pos p h]
    by_cases hc : lit0_6 < numDiv p.detailClicks (numAdd p.detailClicks p.simpleClicks)
    · rw [if_pos hc]
      show (adaptInterface (applyExpert p)).2 = _ ∧ (adaptInterface (applyExpert p)).1 = _
      have h2 : (applyExpert p).detailClicks + (applyExpert p).simpleClicks ≠ 0 := h
      rw [adapt_of_pos _ h2]
      have hc2 : lit0_6 < numDiv (applyExpert p).detailClicks
          (numAdd (applyExpert p).detailClicks (applyExpert p).simpleClicks) := hc
      rw [if_pos hc2, applyExpert_idem]
      exact ⟨rfl, rfl⟩
    · rw [if_neg hc]
      show (adaptInterface (applyBeginner p)).2 = _ ∧ (adaptInterface (applyBeginner p)).1 = _
      have h2 : (applyBeginner p).detailClicks + (applyBeginner p).simpleClicks ≠ 0 := h
      rw [adapt_of_pos _ h2]
      have hc2 : ¬ (lit0_6 < numDiv (applyBeginner p).detailClicks
          (numAdd (applyBeginner p).detailClicks (applyBeginner p).simpleClicks)) := hc
      rw [if_neg hc2, applyBeginner_idem]
      exact ⟨rfl, rfl⟩

/-- C9: when both counters are zero, `adaptInterface` only shows the alert: the
state after the call (counters, cards, classes of the body, label text) is the
state before the call, so no profile is applied. -/
theorem adapt_no_fallback (p : Page) (h : p.detailClicks + p.simpleClicks = 0) :
    adaptInterface p = (p, AdaptResult.alert alertMessage) ∧
    (adaptInterface p).1.bodyClasses = p.bodyClasses ∧
    (adaptInterface p).1.profileLabel = p.profileLabel := by
  rw [adapt_of_zero p h]
  exact ⟨rfl, rfl, rfl⟩

/-- C9, witness: a fresh page that carries the expert class keeps it. -/
theorem adapt_no_fallback_witness :
    adaptInterface (Page.init [] ["mode-expert"] "Current profile: none")
      = (Page.init [] ["mode-expert"] "Current profile: none",
          AdaptResult.alert alertMessage) :=
  (adapt_no_fallback (Page.init [] ["mode-expert"] "Current profile: none") (by decide)).1

/-! ## The toggle button -/

theorem isHidden_remove (cs : List String) :
    classContains (classRemove cs "hidden") "hidden" = false := by
  simp [classContains, classRemove]

theorem isHidden_add (cs : List String) :
    classContains (classAdd cs "hidden") "hidden" = true := by
  simp [classContains, mem_classAdd]

/-- C10, as stated, fails at the largest counter value: with `detailClicks =
2 ^ 53`, a click on the button of a card with hidden details shows the details,
but `detailClicks` is not incremented. -/
theorem toggle_top_counterexample :
    ((toggleClick 0 (Page.mk (2 ^ 53) 0 [Card.mk ["details", "hidden"] "Show more details"]
        [] ""))).cards = [Card.mk ["details"] "Hide details"] ∧
    ((toggleClick 0 (Page.mk (2 ^ 53) 0 [Card.mk ["details", "hidden"] "Show more details"]
        [] ""))).detailClicks ≠ 2 ^ 53 + 1 := by
  decide

/-- C10 (amended): in every state in which the counter of the kind to be
recorded is below `2 ^ 53` (`detailClicks` when the details are hidden before
the click, `simpleClicks` when they are visible), a click on the toggle button
of a card flips the visibility of the card's details and counts exactly one
event, of the kind given by the visibility after the click: `detailClicks` goes
up by 1 (and `simpleClicks` is unchanged) if and only if the details are visible
after the click, `simpleClicks` goes up by 1 (and `detailClicks` is unchanged)
if and only if they are hidden after the click. -/
theorem toggle_flips_and_counts (p : Page) (i : Nat) (card : Card)
    (hcard : p.cards[i]? = some card)
    (hb : (if card.isHidden then p.detailClicks else p.simpleClicks) < 2 ^ 53) :
    ∃ after : Card, (toggleClick i p).cards[i]? = some after ∧
      after.isHidden = !card.isHidden ∧
      (after.isHidden = false ↔
        (toggleClick i p).detailClicks = p.detailClicks + 1 ∧
        (toggleClick i p).simpleClicks = p.simpleClicks) ∧
      (after.isHidden = true ↔
        (toggleClick i p).simpleClicks = p.simpleClicks + 1 ∧
        (toggleClick i p).detailClicks = p.detailClicks) := by
  have hset : ∀ c : Card, (p.cards.set i c)[i]? = some c := by
    intro c
    rw [List.getElem?_set_self', hcard]
    rfl
  unfold toggleClick
  rw [hcard]
  by_cases hh : card.isHidden = true
  · have hd : p.detailClicks < 2 ^ 53 := by
      rw [if_pos hh] at hb
      exact hb
    simp only [hh, if_true]
    refine ⟨⟨classRemove card.detailsClasses "hidden", "Hide details"⟩, hset _, ?_, ?_, ?_⟩
    · exact isHidden_remove _
    · have e1 : (Card.mk (classRemove card.detailsClasses "hidden") "Hide details").isHidden
          = false := isHidden_remove _
      rw [e1]
      have e2 : (record Interaction.expand
          { p with cards := p.cards.set i ⟨classRemove card.detailsClasses "hidden",
            "Hide details"⟩ }).detailClicks = p.detailClicks + 1 := numIncr_exact _ hd
      simp only [true_iff]
      exact ⟨e2, rfl⟩
    · have e1 : (Card.mk (classRemove card.detailsClasses "hidden") "Hide details").isHidden
          = false := isHidden_remove _
      rw [e1]
      have e2 : (record Interaction.expand
          { p with cards := p.cards.set i ⟨classRemove card.detailsClasses "hidden",
            "Hide details"⟩ }).detailClicks = p.detailClicks + 1 := numIncr_exact _ hd
      constructor
      · intro hf; cases hf
      · rintro ⟨_, h1⟩
        rw [e2] at h1
        exact absurd h1 (Nat.succ_ne_self _)
  · have hh2 : card.isHidden = false := by
      cases hv : card.isHidden
      · rfl
      · exact absurd hv hh
    have hs : p.simpleClicks < 2 ^ 53 := by
      rw [if_neg hh] at hb
      exact hb
    simp only [hh2, Bool.false_eq_true, if_false]
    refine ⟨⟨classAdd card.detailsClasses "hidden", "Show more details"⟩, hset _, ?_, ?_, ?_⟩
    · exact isHidden_add _
    · have e1 : (Card.mk (classAdd card.detailsClasses "hidden") "Show more details").isHidden
          = true := isHidden_add _
      rw [e1]
      have e2 : (record Interaction.collapse
          { p with cards := p.cards.set i ⟨classAdd card.detailsClasses "hidden",
            "Show more details"⟩ }).simpleClicks = p.simpleClicks + 1 := numIncr_exact _ hs
      constructor
      · intro hf; cases hf
      · rintro ⟨_, h1⟩
        rw [e2] at h1
        exact absurd h1 (Nat.succ_ne_self _)
    · have e1 : (Card.mk (classAdd card.detailsClasses "hidden") "Show more details").isHidden
          = true := isHidden_add _
      rw [e1]
      have e2 : (record Interaction.collapse
          { p with cards := p.cards.set i ⟨classAdd card.detailsClasses "hidden",
            "Show more details"⟩ }).simpleClicks = p.simpleClicks + 1 := numIncr_exact _ hs
      simp only [true_iff]
      exact ⟨e2, rfl⟩

/-- C10, witness: a click on the only card, whose details are hidden, in the
state (2, 1) shows the details and gives the state (3, 1). -/
theorem toggle_flips_and_counts_witness :
    ∃ after : Card,
      (toggleClick 0 (Page.mk 2 1 [Card.mk ["details", "hidden"] "Show more details"] []
        "")).cards[0]? = some after ∧
      after.isHidden = !(Card.mk ["details", "hidden"] "Show more details").isHidden ∧
      (after.isHidden = false ↔
        (toggleClick 0 (Page.mk 2 1 [Card.mk ["details", "hidden"] "Show more details"] []
          "")).detailClicks = 2 + 1 ∧
        (toggleClick 0 (Page.mk 2 1 [Card.mk ["details", "hidden"] "Show more details"] []
          "")).simpleClicks = 1) ∧
      (after.isHidden = true ↔
        (toggleClick 0 (Page.mk 2 1 [Card.mk ["details", "hidden"] "Show more details"] []
          "")).simpleClicks = 1 + 1 ∧
        (toggleClick 0 (Page.mk 2 1 [Card.mk ["details", "hidden"] "Show more details"] []
          "")).detailClicks = 2) :=
  toggle_flips_and_counts
    (Page.mk 2 1 [Card.mk ["details", "hidden"] "Show more details"] [] "") 0
    (Card.mk ["details", "hidden"] "Show more details") rfl (by decide)

end AdaptiveUI
